import Mathlib

/-!
Verification development for the crewAI task-execution core.

Shallow embedding of:
- `src/crewai/utilities/rpm_controller.py` (`RPMController`)
- the tool-result cache (`CacheHandler`, modelled from the spec; its file is
  not in the source tree, only its callers)
- `src/crewai/tools/cache_tools.py` (`CacheTools.hit_cache`)
- `src/crewai/tools/agent_tools.py` (`AgentTools._execute`)
- `src/crewai/task.py` (`Task.check_tools`, `Task.execute`, `Task._prompt`)
- `src/crewai/crew.py` (`Crew.check_config`, `Crew._setup_from_config`,
  `Crew._run_sequential_process`, `Crew._run_hierarchical_process`)
- `src/crewai/agent.py` (`Agent.set_private_attrs`, `Agent.set_rpm_controller`,
  `Agent.set_cache_handler`, `Agent.execute_task`)
- `src/crewai/agents/executor.py` (`CrewAgentExecutor._call`,
  `CrewAgentExecutor._iter_next_step`, `_should_force_answer`, `_force_answer`)

Machine-level collaborators that the spec declares out of scope (the LLM call,
output parsing, i18n string content) are embedded as opaque function-valued
parameters of the configurations below.
-/

namespace CrewAI

/-! ## Python string primitives

The source manipulates Python strings with `str.split(sep)` and `str.strip()`.
We embed them as executable functions on `List Char` / `String`.
-/

/-- Python whitespace characters recognised by `str.strip()` (ASCII subset). -/
def pyWhitespaceChar (c : Char) : Bool :=
  c = ' ' || c = '\t' || c = '\n' || c = '\r' || c = '\x0b' || c = '\x0c'

/-- Embedding of Python `str.strip()`: drop whitespace from both ends. -/
def pyStrip (s : String) : String :=
  ⟨((s.data.dropWhile pyWhitespaceChar).reverse.dropWhile pyWhitespaceChar).reverse⟩

/-- One element of `sep` occurs as a contiguous sublist of the argument. -/
def hasSubstr (sep : List Char) : List Char → Bool
  | [] => sep.isEmpty
  | c :: rest => sep.isPrefixOf (c :: rest) || hasSubstr sep rest

/-- Worker for `pySplit`: scan left to right, matching `sep` non-overlapping,
accumulating the current segment in reverse.  `fuel` bounds the recursion and
is always instantiated at the length of the scanned list, which suffices. -/
def pySplitAux (sep : List Char) : Nat → List Char → List Char → List (List Char)
  | _, [], acc => [acc.reverse]
  | 0, s, acc => [acc.reverse ++ s]
  | fuel + 1, c :: rest, acc =>
    if sep.isPrefixOf (c :: rest) then
      acc.reverse :: pySplitAux sep fuel (rest.drop (sep.length - 1)) []
    else
      pySplitAux sep fuel rest (c :: acc)

/-- Embedding of Python `str.split(sep)` for a non-empty separator
(every call site in the source uses a non-empty literal separator). -/
def pySplit (s sep : String) : List String :=
  if sep.data.isEmpty then [s]
  else (pySplitAux sep.data s.data.length s.data []).map (fun l => ⟨l⟩)

/-- A separator that cannot overlap a shifted copy of itself: no proper
non-empty shift of `sep` is a prefix of `sep`.  Both separators used by
`CacheTools.hit_cache` satisfy this (checked by `decide`). -/
def NoSelfOverlap (sep : List Char) : Prop :=
  ∀ k, k < sep.length → 0 < k → ¬ (sep.drop k <+: sep)

instance (sep : List Char) : Decidable (NoSelfOverlap sep) := by
  unfold NoSelfOverlap; infer_instance

/-! ## RPMController (`src/crewai/utilities/rpm_controller.py`)

State is the fields read and written by `check_or_wait`: the configured cap
`max_rpm` and the private counter `_current_rpm`.  Each `logger.log` call is
recorded in `notices`.  The private `self._lock` is a non-reentrant
`threading.Lock`; `check_or_wait` holds it for its entire if/else body
(line 58), and `_wait_for_next_minute` (called at/above the cap, line 66)
tries to acquire it again after its `time.sleep(60)` (line 90).  Same-thread
re-acquisition of a non-reentrant lock blocks forever, so the at/above-cap
call never returns; the embedding makes the lock explicit and returns a
distinguished `deadlocked` outcome for it.
-/

/-- Python truthiness of the `max_rpm` field (`None` and `0` are falsy). -/
def capTruthy : Option Nat → Bool
  | none => false
  | some n => n != 0

structure RPMState where
  max_rpm : Option Nat
  current_rpm : Nat
deriving DecidableEq, Repr

/-- The literal message logged by `check_or_wait` when the cap is hit. -/
def maxRpmLogMessage : String := "Max RPM reached, waiting for next minute to start."

/-- Outcome of one `check_or_wait` call on the calling thread: either the
method returns (`allowed` is `True` in every return path of the source), or
it blocks forever. -/
inductive CheckOutcome where
  /-- The call returned, with the notices it logged and the post-state. -/
  | completed (allowed : Bool) (notices : List String) (state : RPMState)
  /-- The call never returns: it blocks re-acquiring the non-reentrant lock
  the same thread already holds, after having logged `notices`. -/
  | deadlocked (notices : List String)
deriving DecidableEq, Repr

/-- Embedding of `RPMController._wait_for_next_minute` (rpm_controller.py
lines 81-91): sleep, then `with self._lock: self._current_rpm = 0`.
`lockHeld` records whether the calling thread already holds `self._lock`;
acquiring a non-reentrant `threading.Lock` the thread holds blocks forever
(`none`). -/
def RPMController.wait_for_next_minute (lockHeld : Bool) (s : RPMState) :
    Option RPMState :=
  if lockHeld then none
  else some { s with current_rpm := 0 }

/-- Embedding of `RPMController.check_or_wait` (rpm_controller.py lines
38-68).  The `with self._lock:` block spans the whole if/else, so
`_wait_for_next_minute` is called with the lock already held by this
thread. -/
def RPMController.check_or_wait (s : RPMState) : CheckOutcome :=
  if capTruthy s.max_rpm = false then
    .completed true [] s
  else
    let cap := s.max_rpm.getD 0
    if s.current_rpm < cap then
      .completed true [] { s with current_rpm := s.current_rpm + 1 }
    else
      match RPMController.wait_for_next_minute true s with
      | none => .deadlocked [maxRpmLogMessage]
      | some s2 => .completed true [maxRpmLogMessage] { s2 with current_rpm := 1 }

/-! ## CacheHandler

Modelled from the spec: the class `CacheHandler`
(`crewai/agents/cache/cache_handler.py`) is imported by the source files but
its file is absent from the source tree.  Per spec sections 3 and 4.2 it is an
in-memory memo table keyed by the literal hyphen-joined string
`"{tool_name}-{tool_input}"`; `add` is an unconditional upsert and `read` an
exact-match lookup.  We represent the dict as an association list whose keys
are kept unique (a Python dict invariant).
-/

structure CacheHandler where
  cache : List (String × String)
deriving DecidableEq, Repr

/-- Modelled from the spec: the cache key scheme `"{tool_name}-{tool_input}"`. -/
def cacheKey (tool input : String) : String := tool ++ "-" ++ input

/-- Replace the value at the first occurrence of `k`, or append `(k, v)`:
the update behaviour of a Python dict entry assignment. -/
def upsertAssoc (k v : String) : List (String × String) → List (String × String)
  | [] => [(k, v)]
  | (k2, v2) :: rest =>
    if k2 = k then (k, v) :: rest else (k2, v2) :: upsertAssoc k v rest

/-- First value stored at key `k` (Python dict lookup). -/
def findAssoc (k : String) : List (String × String) → Option String
  | [] => none
  | (k2, v2) :: rest => if k2 = k then some v2 else findAssoc k rest

/-- Modelled from the spec: `CacheHandler.add(tool, input, output)`. -/
def CacheHandler.add (c : CacheHandler) (tool input output : String) : CacheHandler :=
  ⟨upsertAssoc (cacheKey tool input) output c.cache⟩

/-- Modelled from the spec: `CacheHandler.read(tool, input)`. -/
def CacheHandler.read (c : CacheHandler) (tool input : String) : Option String :=
  findAssoc (cacheKey tool input) c.cache

/-- The dict invariant: at most one entry per key. -/
def CacheHandler.KeysUnique (c : CacheHandler) : Prop :=
  (c.cache.map Prod.fst).Nodup

/-! ## CacheTools (`src/crewai/tools/cache_tools.py`) -/

/-- Default name of the cache-read tool (`CacheTools.name`). -/
def cacheToolName : String := "Hit Cache"

/-- The executor packs a proposed invocation into the cache-read tool's input
string (executor.py line 232): `f"tool:{action.tool}|input:{action.tool_input}"`. -/
def packCacheInput (tool input : String) : String :=
  "tool:" ++ tool ++ "|input:" ++ input

/-- Embedding of `CacheTools.hit_cache` (cache_tools.py lines 50-80).
`none` models the `IndexError` raised when a `split` index is out of range;
`some r` is a completed call returning `cache_handler.read(tool, tool_input)`
(itself `Option`-valued: the spec's `text | notFound`). -/
def CacheTools.hit_cache (c : CacheHandler) (key : String) : Option (Option String) :=
  match pySplit key "tool:" with
  | _ :: s1 :: _ =>
    match pySplit s1 "|input:" with
    | t :: i :: _ => some (c.read (pyStrip t) (pyStrip i))
    | _ => none
  | _ => none

/-! ## Runtime model of agents and tasks (`agent.py`, `task.py`, `crew.py`)

The LLM-backed execution loop behind `Agent.execute_task` is the opaque
model-call collaborator; each agent carries it as the function `perform`
(prompt, context, tool names) ↦ answer text.  Localized template strings
(the i18n collaborator, whose translation files are not in the source tree)
are carried as function/string fields of `CrewCfg`.
-/

structure Agent where
  role : String
  goal : String
  backstory : String
  allow_delegation : Bool
  tools : List String
  perform : String → String → List String → String

structure Task where
  description : String
  expected_output : Option String
  agent : Option Agent
  /-- Predecessor tasks (`Task.context`), as indices into the crew's task
  list; in the source these are shared references to the `Task` objects. -/
  context : Option (List Nat)
  tools : List String

structure CrewCfg where
  /-- i18n slice `task_with_context`, applied to (task, context). -/
  taskWithContext : String → String → String
  /-- i18n slice `expected_output`, applied to the expected-output text. -/
  expectedOutputSlice : String → String
  /-- i18n error `agent_tool_missing_param`. -/
  agentToolMissingParam : String
  /-- i18n error `agent_tool_unexsiting_coworker`, applied to the
  comma-joined coworker roles. -/
  agentToolUnexsitingCoworker : String → String
  /-- i18n `hierarchical_manager_agent` role / goal / backstory. -/
  managerRole : String
  managerGoal : String
  managerBackstory : String
  /-- The synthesized manager agent's model-call collaborator. -/
  managerPerform : String → String → List String → String

/-- What one `Agent.execute_task` call did: which agent ran, the prompt and
context it received, the tools in effect, and the text it returned. -/
structure ExecRecord where
  role : String
  prompt : String
  context : String
  toolsUsed : List String
  result : String
deriving DecidableEq, Repr

/-- Embedding of `Task._prompt` (task.py lines 124-143).  An empty
`expected_output` string is falsy in Python and leaves the prompt bare. -/
def Task.promptOf (cfg : CrewCfg) (t : Task) : String :=
  match t.expected_output with
  | some eo => if eo = "" then t.description else t.description ++ "\n" ++ cfg.expectedOutputSlice eo
  | none => t.description

/-- Embedding of `Agent.execute_task` (agent.py lines 154-194): wrap the task
in the context template when `context` is truthy, fall back to the agent's own
tools when `tools` is falsy, and run the executor (abstracted as `perform`). -/
def Agent.execute_task (a : Agent) (cfg : CrewCfg) (task context : String)
    (tools : List String) : ExecRecord :=
  let task2 := if context = "" then task else cfg.taskWithContext task context
  let tools2 := if tools.isEmpty then a.tools else tools
  { role := a.role, prompt := task2, context := context, toolsUsed := tools2
    result := a.perform task2 context tools2 }

inductive RunError where
  /-- `Task.execute` raised: the task has no agent and no override was given. -/
  | noAgentAssigned
  /-- `AttributeError`: a predecessor task's `output` is still `None`. -/
  | missingPredecessorOutput
  /-- `AttributeError`: `self.agent` is `None` at `self.agent.execute_task`. -/
  | noneAgentAttribute
deriving DecidableEq, Repr

/-- Sequence a list of fallible lookups (the monadic traversal used below,
written structurally). -/
def optionTraverse {α β : Type _} (f : α → Option β) : List α → Option (List β)
  | [] => some []
  | x :: rest =>
    match f x with
    | none => none
    | some y =>
      match optionTraverse f rest with
      | none => none
      | some ys => some (y :: ys)

/-- Sequence a list of fallible computations, stopping at the first error
(the evaluation order of a Python list comprehension). -/
def exceptTraverse {ε α β : Type _} (f : α → Except ε β) : List α → Except ε (List β)
  | [] => .ok []
  | x :: rest =>
    match f x with
    | .error e => .error e
    | .ok y =>
      match exceptTraverse f rest with
      | .error e => .error e
      | .ok ys => .ok (y :: ys)

/-- Context resolution inside `Task.execute` (task.py lines 113-114):
a truthy `self.context` list overrides the passed context with the
newline-join of the predecessors' results; `none` models the
`AttributeError` on a predecessor whose output does not exist yet. -/
def Task.resolveContext (t : Task) (prevOutputs : List String) (passed : String) :
    Option String :=
  match t.context with
  | some ps =>
    if ps.isEmpty then some passed
    else (optionTraverse (fun p => prevOutputs[p]?) ps).map (String.intercalate "\n")
  | none => some passed

/-- Embedding of `Task.execute` (task.py lines 84-122).  Note the source's
line 116: after validating `agent = agent or self.agent`, the call is made on
`self.agent`, not on the resolved `agent`; the embedding reproduces that. -/
def Task.execute (cfg : CrewCfg) (t : Task) (overrideAgent : Option Agent)
    (passed : String) (prevOutputs : List String) : Except RunError ExecRecord :=
  match overrideAgent <|> t.agent with
  | none => .error .noAgentAssigned
  | some _ =>
    match t.resolveContext prevOutputs passed with
    | none => .error .missingPredecessorOutput
    | some ctx =>
      match t.agent with
      | none => .error .noneAgentAttribute
      | some selfAgent => .ok (selfAgent.execute_task cfg (t.promptOf cfg) ctx t.tools)

/-- Names of the two delegation tools built by `AgentTools.tools()`
(agent_tools.py lines 27-42). -/
def delegationToolNames : List String :=
  ["Delegate work to co-worker", "Ask question to co-worker"]

/-- The just-in-time tool mutation in `Crew._run_sequential_process`
(crew.py lines 229-230): append the delegation tools when the task's agent
permits delegation. -/
def Task.withDelegation (t : Task) : Task :=
  match t.agent with
  | some a => if a.allow_delegation then { t with tools := t.tools ++ delegationToolNames } else t
  | none => t

/-- Worker for `Crew._run_sequential_process` (crew.py lines 216-244):
thread the latest task output as the next context, collect the per-task
execution records, and return the final output. -/
def Crew.runSeqAux (cfg : CrewCfg) (prevOutputs : List String) (hist : String) :
    List Task → Except RunError (List ExecRecord × String)
  | [] => .ok ([], hist)
  | t :: rest =>
    match Task.execute cfg t.withDelegation none hist prevOutputs with
    | .error e => .error e
    | .ok r =>
      match Crew.runSeqAux cfg (prevOutputs ++ [r.result]) r.result rest with
      | .error e => .error e
      | .ok pr => .ok (r :: pr.1, pr.2)

/-- Embedding of `Crew._run_sequential_process`: initial context is `""`. -/
def Crew.runSequential (cfg : CrewCfg) (tasks : List Task) :
    Except RunError (List ExecRecord × String) :=
  Crew.runSeqAux cfg [] "" tasks

/-- The implicit manager synthesized by `Crew._run_hierarchical_process`
(crew.py lines 259-266): localized role/goal/backstory and delegation tools. -/
def Crew.mkManager (cfg : CrewCfg) : Agent :=
  { role := cfg.managerRole, goal := cfg.managerGoal, backstory := cfg.managerBackstory
    allow_delegation := true, tools := delegationToolNames, perform := cfg.managerPerform }

/-- Worker for `Crew._run_hierarchical_process` (crew.py lines 246-281):
every task is executed with the manager passed as the override agent. -/
def Crew.runHierAux (cfg : CrewCfg) (manager : Agent) (prevOutputs : List String)
    (hist : String) : List Task → Except RunError (List ExecRecord × String)
  | [] => .ok ([], hist)
  | t :: rest =>
    match Task.execute cfg t (some manager) hist prevOutputs with
    | .error e => .error e
    | .ok r =>
      match Crew.runHierAux cfg manager (prevOutputs ++ [r.result]) r.result rest with
      | .error e => .error e
      | .ok pr => .ok (r :: pr.1, pr.2)

/-- Embedding of `Crew._run_hierarchical_process`. -/
def Crew.runHierarchical (cfg : CrewCfg) (tasks : List Task) :
    Except RunError (List ExecRecord × String) :=
  Crew.runHierAux cfg (Crew.mkManager cfg) [] "" tasks

/-- Well-formedness of a task list starting at position `k` for sequential
execution: every task has an agent and every declared predecessor index
points at an earlier task. -/
def Crew.seqWF : Nat → List Task → Bool
  | _, [] => true
  | k, t :: rest =>
    (t.agent.isSome &&
      (match t.context with
       | some ps => ps.all fun p => decide (p < k)
       | none => true)) && Crew.seqWF (k + 1) rest

/-- A second definition following the spec's words (spec sections 4.4 and 8;
claim C4), to be compared with `Crew.runSequential`: each task runs on its own
agent with context equal to the immediately preceding task's raw output
(initially `""`), except that a task declaring predecessor tasks instead
receives the newline-joined results of those predecessors in stored order;
the run's value is the last task's output. -/
def Crew.seqSpecAux (cfg : CrewCfg) (prevOutputs : List String) (hist : String) :
    List Task → List ExecRecord × String
  | [] => ([], hist)
  | t :: rest =>
    let ctx :=
      match t.context with
      | some ps =>
        if ps.isEmpty then hist
        else String.intercalate "\n" (ps.map fun p => prevOutputs[p]?.getD "")
      | none => hist
    let t2 := t.withDelegation
    let r :=
      match t2.agent with
      | some a => a.execute_task cfg (t2.promptOf cfg) ctx t2.tools
      | none => ⟨"", "", "", [], ""⟩
    let rec2 := Crew.seqSpecAux cfg (prevOutputs ++ [r.result]) r.result rest
    (r :: rec2.1, rec2.2)

/-- Top-level form of the spec-side sequential run. -/
def Crew.seqSpec (cfg : CrewCfg) (tasks : List Task) : List ExecRecord × String :=
  Crew.seqSpecAux cfg [] "" tasks

/-! ## Task.check_tools (`src/crewai/task.py` lines 68-82) -/

/-- Embedding of the `check_tools` model validator: a task with no tools of
its own inherits (a copy of) its agent's tools, when both exist. -/
def Task.check_tools (t : Task) : Task :=
  if t.tools.isEmpty then
    match t.agent with
    | some a => if a.tools.isEmpty then t else { t with tools := t.tools ++ a.tools }
    | none => t
  else t

/-! ## AgentTools (`src/crewai/tools/agent_tools.py`) -/

/-- Embedding of `AgentTools._execute` (agent_tools.py lines 73-111): parse a
pipe-delimited `coworkerRole|task|context` command.  The `try/except
ValueError` around tuple unpacking becomes the wildcard match on segment
count; both failure paths return an error string, never an exception. -/
def AgentTools.execute (cfg : CrewCfg) (agents : List Agent) (command : String) : String :=
  match pySplit command "|" with
  | [agentRole, task, context] =>
    if agentRole = "" || task = "" || context = "" then cfg.agentToolMissingParam
    else
      match agents.filter (fun a => a.role == agentRole) with
      | [] =>
        cfg.agentToolUnexsitingCoworker
          (String.intercalate ", " (agents.map (fun a => a.role)))
      | a :: _ => (a.execute_task cfg task context []).result
  | _ => cfg.agentToolMissingParam

/-- `AgentTools.delegate_work` simply forwards to `_execute`. -/
def AgentTools.delegate_work (cfg : CrewCfg) (agents : List Agent) (command : String) : String :=
  AgentTools.execute cfg agents command

/-- `AgentTools.ask_question` simply forwards to `_execute`. -/
def AgentTools.ask_question (cfg : CrewCfg) (agents : List Agent) (command : String) : String :=
  AgentTools.execute cfg agents command

/-! ## Crew construction (`src/crewai/crew.py` lines 122-188) -/

/-- An entry of `config["agents"]` (keyword arguments of `Agent(**agent)`). -/
structure AgentCfg where
  role : String
  goal : String
  backstory : String
deriving DecidableEq, Repr

/-- An entry of `config["tasks"]`: a description plus an agent role name. -/
structure TaskCfg where
  description : String
  agent : String
deriving DecidableEq, Repr

/-- The parsed `config` dict; a key maps to `none` when absent. -/
structure CrewConfigDict where
  agents : Option (List AgentCfg)
  tasks : Option (List TaskCfg)
deriving DecidableEq, Repr

inductive CrewConfigError where
  /-- `PydanticCustomError "missing_keys"`: neither agents/tasks nor config. -/
  | missing_keys
  /-- `PydanticCustomError "missing_keys_in_config"`:
  "Config should have 'agents' and 'tasks'.". -/
  | missing_keys_in_config
  /-- `StopIteration` escaping from `next(...)` in `Crew._create_task`:
  no configured agent has the task's role. -/
  | no_matching_agent (role : String)
deriving DecidableEq, Repr

/-- A task as constructed by `Crew._create_task`: its description and its
resolved agent (directly-supplied tasks may also carry `none`). -/
structure ConstructedTask where
  description : String
  agent : Option AgentCfg
deriving DecidableEq, Repr

/-- Python truthiness of `config.get(key)`: falsy when absent or empty. -/
def optListFalsy {α : Type} : Option (List α) → Bool
  | none => true
  | some l => l.isEmpty

/-- Embedding of `Crew._create_task` (crew.py lines 175-188): `next` picks the
first agent whose role matches; exhaustion raises `StopIteration`. -/
def Crew.create_task (agents : List AgentCfg) (tc : TaskCfg) :
    Except CrewConfigError ConstructedTask :=
  match agents.find? (fun a => a.role == tc.agent) with
  | some ag => .ok ⟨tc.description, some ag⟩
  | none => .error (.no_matching_agent tc.agent)

/-- Embedding of `Crew._setup_from_config` (crew.py lines 155-173). -/
def Crew.setup_from_config (cfg : CrewConfigDict) :
    Except CrewConfigError (List AgentCfg × List ConstructedTask) :=
  if optListFalsy cfg.agents || optListFalsy cfg.tasks then .error .missing_keys_in_config
  else
    match exceptTraverse (Crew.create_task (cfg.agents.getD [])) (cfg.tasks.getD []) with
    | .ok ts => .ok (cfg.agents.getD [], ts)
    | .error e => .error e

/-- Embedding of `Crew.check_config` (crew.py lines 122-153), restricted to
its construction-validation behaviour (the cache/RPM wiring of the agents is
modelled separately by `AgentRpmView`).  A `config` value of `none` models a
falsy config. -/
def Crew.check_config (config : Option CrewConfigDict) (agents : List AgentCfg)
    (tasks : List ConstructedTask) :
    Except CrewConfigError (List AgentCfg × List ConstructedTask) :=
  if config.isNone && tasks.isEmpty && agents.isEmpty then .error .missing_keys
  else
    match config with
    | some cfg => Crew.setup_from_config cfg
    | none => .ok (agents, tasks)

/-! ## Agent RPM wiring (`src/crewai/agent.py`)

Projection of an `Agent` onto the fields involved in rate-limiter precedence:
the declared `max_rpm`, the private `_rpm_controller`, and the limiter the
built executor's `request_within_rpm_limit` is bound to.
-/

structure AgentRpmView where
  max_rpm : Option Nat
  rpm_controller : Option RPMState
  executor_gate : Option RPMState
  executor_built : Bool
deriving DecidableEq, Repr

/-- Embedding of `Agent._create_agent_executor` (agent.py lines 219-277):
the executor's `request_within_rpm_limit` is `self._rpm_controller.check_or_wait`
when a controller is present. -/
def AgentRpmView.create_agent_executor (a : AgentRpmView) : AgentRpmView :=
  { a with executor_gate := a.rpm_controller, executor_built := true }

/-- Embedding of `Agent.set_cache_handler` (agent.py lines 196-205); the cache
wiring itself is not part of this projection, the executor rebuild is. -/
def AgentRpmView.set_cache_handler (a : AgentRpmView) : AgentRpmView :=
  a.create_agent_executor

/-- Embedding of `Agent.set_private_attrs` (agent.py lines 123-139): build a
personal controller from a truthy `max_rpm` when none is present. -/
def AgentRpmView.set_private_attrs (a : AgentRpmView) : AgentRpmView :=
  if capTruthy a.max_rpm && a.rpm_controller.isNone then
    { a with rpm_controller := some ⟨a.max_rpm, 0⟩ }
  else a

/-- Embedding of `Agent.check_agent_executor` (agent.py lines 141-152). -/
def AgentRpmView.check_agent_executor (a : AgentRpmView) : AgentRpmView :=
  if a.executor_built then a else a.set_cache_handler

/-- Embedding of `Agent.set_rpm_controller` (agent.py lines 207-217): assign
the given (crew-level) controller only when no controller is present. -/
def AgentRpmView.set_rpm_controller (a : AgentRpmView) (c : RPMState) : AgentRpmView :=
  if a.rpm_controller.isNone then
    { a with rpm_controller := some c }.create_agent_executor
  else a

/-- Agent construction (pydantic model validators in declaration order:
`set_private_attrs`, then `check_agent_executor`). -/
def AgentRpmView.construct (max_rpm : Option Nat) : AgentRpmView :=
  (AgentRpmView.set_private_attrs ⟨max_rpm, none, none, false⟩).check_agent_executor

/-- The per-agent wiring performed by `Crew.check_config` (crew.py lines
149-152): `set_cache_handler` then `set_rpm_controller` with the crew's
shared controller. -/
def Crew.wireAgent (a : AgentRpmView) (crewController : RPMState) : AgentRpmView :=
  (a.set_cache_handler).set_rpm_controller crewController

/-! ## CrewAgentExecutor (`src/crewai/agents/executor.py`)

The plan step (`self.agent.plan`) is the opaque model-call collaborator: a
function from the intermediate steps so far to one of final answer, a
proposed action, a cache hit, or an output-parsing failure
(`OutputParserException`).  `handle_parsing_errors` is `True`, as set by
`Agent._create_agent_executor`.  Tool execution and the mutation of
`name_to_tool_map` / the iteration bookkeeping of `_call` are embedded
explicitly; wall-clock time is not modelled (no `max_execution_time` is
configured anywhere in the source, so `_should_continue` reduces to the
iteration bound).
-/

structure ExTool where
  name : String
  run : String → String
  return_direct : Bool

structure ExAction where
  tool : String
  tool_input : String
deriving DecidableEq, Repr

structure ExStep where
  action : ExAction
  observation : String
deriving DecidableEq, Repr

inductive PlanOutput where
  | finish (text : String)
  | action (a : ExAction)
  | cacheHit (a : ExAction)
  /-- An `OutputParserException`; `observation` is the recovery observation
  (`str(e.observation)` when `e.send_to_llm`, else the fixed
  "Invalid or incomplete response"). -/
  | parseError (observation : String)

structure ExecutorCfg where
  tools : List ExTool
  max_iterations : Nat
  plan : List ExStep → PlanOutput
  /-- i18n error `used_too_many_tools`. -/
  usedTooManyToolsMessage : String
  /-- The run function of the cache-read tool built at executor.py line 230,
  i.e. `CacheTools(cache_handler=cache).tool().run`; its parsing behaviour is
  verified separately through `CacheTools.hit_cache`. -/
  cacheToolRun : String → String

/-- Embedding of `CrewAgentExecutor._should_force_answer` together with the
`set_force_answer_max_iterations` validator: the threshold is the Python
integer `max_iterations - 2`. -/
def Executor.should_force_answer (cfg : ExecutorCfg) (iterations : Nat) : Bool :=
  decide ((iterations : Int) = (cfg.max_iterations : Int) - 2)

/-- The observation of the langchain `InvalidTool` fallback. -/
def invalidToolObservation (requested : String) (available : List String) : String :=
  requested ++ " is not a valid tool, try one of [" ++ String.intercalate ", " available ++ "]."

def findTool (tools : List ExTool) (n : String) : Option ExTool :=
  tools.find? (fun t => t.name == n)

/-- Tool lookup against `name_to_tool_map`, which holds the configured tools
plus, once a cache hit has been rewritten, the cache-read tool (stored under
its name, shadowing any configured tool of the same name). -/
def Executor.lookupRun (cfg : ExecutorCfg) (cacheAdded : Bool) (n : String) :
    Option (String → String) :=
  if cacheAdded && (n == cacheToolName) then some cfg.cacheToolRun
  else (findTool cfg.tools n).map (fun t => t.run)

/-- The key list of `name_to_tool_map`, used in the invalid-tool observation. -/
def Executor.availableNames (cfg : ExecutorCfg) (cacheAdded : Bool) : List String :=
  (cfg.tools.map (fun t => t.name)) ++
    (if cacheAdded && !(cfg.tools.any (fun t => t.name == cacheToolName)) then
      [cacheToolName]
    else [])

/-- Dispatch of one proposed action (executor.py lines 240-271): run the
resolved tool, or produce the `InvalidTool` observation. -/
def Executor.dispatchAction (cfg : ExecutorCfg) (cacheAdded : Bool) (a : ExAction) : ExStep :=
  match Executor.lookupRun cfg cacheAdded a.tool with
  | some run => ⟨a, run a.tool_input⟩
  | none => ⟨a, invalidToolObservation a.tool (Executor.availableNames cfg cacheAdded)⟩

inductive NextStepResult where
  /-- `AgentFinish` propagated out of the step. -/
  | finish (text : String)
  /-- The steps yielded this iteration, whether the forced-answer transition
  produced them, and whether `name_to_tool_map` now holds the cache tool. -/
  | recorded (newSteps : List ExStep) (forced : Bool) (cacheAdded : Bool)
  /-- A `ValueError` raised out of `_iter_next_step`. -/
  | failure (msg : String)

/-- Embedding of `CrewAgentExecutor._iter_next_step` (executor.py lines
129-271), as consumed by `_take_next_step`.  At the force threshold an
`AgentAction` or `CacheHit` plan output becomes the forced step (observation
`used_too_many_tools`), a parse failure is also forced, and any other output
raises `ValueError` (executor.py lines 165-175). -/
def Executor.iter_next_step (cfg : ExecutorCfg) (cacheAdded : Bool)
    (steps : List ExStep) (iterations : Nat) : NextStepResult :=
  match cfg.plan steps with
  | .parseError obs =>
    let exceptionAction : ExAction := ⟨"_Exception", obs⟩
    if Executor.should_force_answer cfg iterations then
      .recorded [⟨exceptionAction, cfg.usedTooManyToolsMessage⟩] true cacheAdded
    else
      .recorded [⟨exceptionAction, obs⟩] false cacheAdded
  | .finish text =>
    if Executor.should_force_answer cfg iterations then
      .failure "Unexpected output type from agent"
    else .finish text
  | .action a =>
    if Executor.should_force_answer cfg iterations then
      .recorded [⟨a, cfg.usedTooManyToolsMessage⟩] true cacheAdded
    else .recorded [Executor.dispatchAction cfg cacheAdded a] false cacheAdded
  | .cacheHit a =>
    if Executor.should_force_answer cfg iterations then
      .recorded [⟨a, cfg.usedTooManyToolsMessage⟩] true cacheAdded
    else
      let rewritten : ExAction := ⟨cacheToolName, packCacheInput a.tool a.tool_input⟩
      .recorded [Executor.dispatchAction cfg true rewritten] false true

/-- Embedding of langchain's `AgentExecutor._get_tool_return`: a lone step
whose tool (resolved against the configured tools) is `return_direct`
finishes the run with that step's observation. -/
def Executor.getToolReturn (cfg : ExecutorCfg) (s : ExStep) : Option String :=
  match findTool cfg.tools s.action.tool with
  | some t => if t.return_direct then some s.observation else none
  | none => none

inductive ExOutcome where
  | finished (output : String)
  /-- The loop exhausted its iteration budget; `_call` then returns
  `return_stopped_response` (delegated to the model collaborator). -/
  | stoppedEarly
  /-- An uncaught exception escaped `_call`. -/
  | failure (msg : String)
deriving DecidableEq, Repr

/-- One pass of the `while` loop in `_call`, as recorded for verification. -/
structure IterRecord where
  iteration : Nat
  forced : Bool
  newSteps : List ExStep
deriving DecidableEq, Repr

structure RunResult where
  records : List IterRecord
  planCalls : Nat
  outcome : ExOutcome
deriving DecidableEq, Repr

inductive LoopStepResult where
  | terminal (outcome : ExOutcome)
  | directReturn (r : IterRecord) (output : String)
  | next (r : IterRecord) (steps : List ExStep) (cacheAdded : Bool)

/-- The `len(next_step_output) == 1` direct-return check of `_call`
(executor.py lines 114-121): only a lone step can return directly. -/
def Executor.stepToolReturn (cfg : ExecutorCfg) : List ExStep → Option String
  | [single] => Executor.getToolReturn cfg single
  | _ => none

/-- One iteration of `_call`'s loop body (executor.py lines 100-123). -/
def Executor.loopStep (cfg : ExecutorCfg) (cacheAdded : Bool) (steps : List ExStep)
    (iterations : Nat) : LoopStepResult :=
  match Executor.iter_next_step cfg cacheAdded steps iterations with
  | .finish text => .terminal (.finished text)
  | .failure msg => .terminal (.failure msg)
  | .recorded newSteps forced cacheAdded2 =>
    let r : IterRecord := ⟨iterations, forced, newSteps⟩
    match Executor.stepToolReturn cfg newSteps with
    | some out => .directReturn r out
    | none => .next r (steps ++ newSteps) cacheAdded2

/-- The `while self._should_continue(...)` loop of `_call` (executor.py lines
99-127).  The fuel argument equals `max_iterations - iterations` at every
call, so the zero-fuel branch is unreachable; `planCalls` counts the
`self.agent.plan` invocations. -/
def Executor.callLoopAux (cfg : ExecutorCfg) :
    Nat → Nat → List ExStep → Bool → RunResult
  | 0, _, _, _ => ⟨[], 0, .stoppedEarly⟩
  | fuel + 1, iterations, steps, cacheAdded =>
    if iterations < cfg.max_iterations then
      match Executor.loopStep cfg cacheAdded steps iterations with
      | .terminal o => ⟨[], 1, o⟩
      | .directReturn r out => ⟨[r], 1, .finished out⟩
      | .next r steps2 cacheAdded2 =>
        let rest := Executor.callLoopAux cfg fuel (iterations + 1) steps2 cacheAdded2
        ⟨r :: rest.records, rest.planCalls + 1, rest.outcome⟩
    else ⟨[], 0, .stoppedEarly⟩

/-- Embedding of `CrewAgentExecutor._call` (executor.py lines 71-127):
iteration counter and intermediate steps start empty; the rate gate
`request_within_rpm_limit` either returns `True` or never returns (see
`RPMController.check_or_wait`), so in every run in which the loop makes
progress the gate is transparent and is not modelled further here. -/
def Executor.run (cfg : ExecutorCfg) : RunResult :=
  Executor.callLoopAux cfg cfg.max_iterations 0 [] false

/-- Whether an `Except` computation succeeded. -/
def exceptIsOk {ε α : Type _} : Except ε α → Bool
  | .ok _ => true
  | .error _ => false

/-! ## Concrete fixtures used to evaluate the embeddings at specific inputs -/

/-- A crew configuration with concrete collaborator strings/templates. -/
def fixtureCfg : CrewCfg where
  taskWithContext := fun t c => t ++ "\nThis is the context you are working with:\n" ++ c
  expectedOutputSlice := fun e => "Your final answer must be: " ++ e
  agentToolMissingParam := "MISSING_PARAM"
  agentToolUnexsitingCoworker := fun roles => "UNKNOWN_COWORKER:" ++ roles
  managerRole := "Crew Manager"
  managerGoal := "manager goal"
  managerBackstory := "manager backstory"
  managerPerform := fun _ _ _ => "manager answer"

/-- A concrete worker agent. -/
def fixtureAgent : Agent where
  role := "Researcher"
  goal := "research"
  backstory := "curious"
  allow_delegation := false
  tools := []
  perform := fun _ _ _ => "researcher answer"

/-- A concrete agent owning tools `["A", "B"]`. -/
def fixtureAgentAB : Agent where
  role := "Writer"
  goal := "write"
  backstory := "wordy"
  allow_delegation := false
  tools := ["A", "B"]
  perform := fun _ _ _ => "writer answer"

/-- Three agents whose answers expose the context they were given. -/
def fixtureAgentSeq1 : Agent :=
  ⟨"A1", "g", "b", false, [], fun _ _ _ => "out1"⟩

def fixtureAgentSeq2 : Agent :=
  ⟨"A2", "g", "b", false, [], fun _ c _ => "out2(" ++ c ++ ")"⟩

def fixtureAgentSeq3 : Agent :=
  ⟨"A3", "g", "b", false, [], fun _ c _ => "out3(" ++ c ++ ")"⟩

/-- Three sequential tasks: the first two chain implicitly, the third declares
the first two tasks as explicit predecessors. -/
def fixtureSeqTasks : List Task :=
  [⟨"t1", none, some fixtureAgentSeq1, none, []⟩,
   ⟨"t2", none, some fixtureAgentSeq2, none, []⟩,
   ⟨"t3", none, some fixtureAgentSeq3, some [0, 1], []⟩]

def fixtureAgentCfg : AgentCfg := ⟨"Researcher", "g", "b"⟩

/-- A config whose single task references the configured agent's role. -/
def fixtureGoodConfig : CrewConfigDict :=
  ⟨some [fixtureAgentCfg], some [⟨"t1", "Researcher"⟩]⟩

/-- A config whose single task references an unknown role. -/
def fixtureBadRoleConfig : CrewConfigDict :=
  ⟨some [fixtureAgentCfg], some [⟨"t1", "Ghost"⟩]⟩

/-- A config with the `tasks` key absent. -/
def fixtureNoTasksConfig : CrewConfigDict := ⟨some [fixtureAgentCfg], none⟩

/-- An executor with `max_iterations = 4` whose planner always proposes the
same (non-`return_direct`) tool action. -/
def fixtureExecCfg : ExecutorCfg where
  tools := [⟨"t", fun _ => "out", false⟩]
  max_iterations := 4
  plan := fun _ => .action ⟨"t", "x"⟩
  usedTooManyToolsMessage := "used too many tools"
  cacheToolRun := fun _ => ""

/-- An executor with `max_iterations = 2` whose planner immediately proposes
a final answer (the force threshold is iteration 0). -/
def fixtureFinishCfg : ExecutorCfg where
  tools := []
  max_iterations := 2
  plan := fun _ => .finish "done"
  usedTooManyToolsMessage := "used too many tools"
  cacheToolRun := fun _ => ""

end CrewAI

namespace CrewAI

/-! ## Theorems -/

/-- C2 (evaluation of the code at the failing input): with no (truthy) cap
`check_or_wait` returns `True` without touching the counter, and below the
cap it increments and returns `True`; but at/above the cap it logs exactly
one "max rate reached" notice and then never returns: `_wait_for_next_minute`
re-acquires the non-reentrant `self._lock` that `check_or_wait` already
holds, so the call deadlocks instead of resetting the counter to 1 and
returning `True` as the claim states. -/
theorem rpm_check_or_wait_deadlock (s : RPMState) :
    (capTruthy s.max_rpm = false →
        RPMController.check_or_wait s = .completed true [] s)
    ∧ (∀ cap, s.max_rpm = some cap → 0 < cap → s.current_rpm < cap →
        RPMController.check_or_wait s =
          .completed true [] { s with current_rpm := s.current_rpm + 1 })
    ∧ (∀ cap, s.max_rpm = some cap → 0 < cap → cap ≤ s.current_rpm →
        RPMController.check_or_wait s = .deadlocked [maxRpmLogMessage]) := by
  refine ⟨?_, ?_, ?_⟩
  · intro h
    unfold RPMController.check_or_wait
    simp [h]
  · intro cap hcap hpos hlt
    have hct : capTruthy (some cap) = true := by
      simp [capTruthy]
      omega
    simp [RPMController.check_or_wait, hcap, hct, hlt]
  · intro cap hcap hpos hge
    have hct : capTruthy (some cap) = true := by
      simp [capTruthy]
      omega
    have hnlt : ¬ s.current_rpm < cap := not_lt.mpr hge
    simp [RPMController.check_or_wait, RPMController.wait_for_next_minute,
      hcap, hct, hnlt]

/-- Witness for C2 at concrete states: cap 1 with the counter at the cap
(logs once, then deadlocks), cap 2 below the cap (increment), and no cap. -/
theorem rpm_check_or_wait_deadlock_witness :
    RPMController.check_or_wait ⟨some 1, 1⟩ = .deadlocked [maxRpmLogMessage]
    ∧ RPMController.check_or_wait ⟨some 2, 0⟩ = .completed true [] ⟨some 2, 1⟩
    ∧ RPMController.check_or_wait ⟨none, 5⟩ = .completed true [] ⟨none, 5⟩ :=
  ⟨(rpm_check_or_wait_deadlock ⟨some 1, 1⟩).2.2 1 rfl (by decide) (by decide),
   (rpm_check_or_wait_deadlock ⟨some 2, 0⟩).2.1 2 rfl (by decide) (by decide),
   (rpm_check_or_wait_deadlock ⟨none, 5⟩).1 (by decide)⟩

theorem findAssoc_upsert_self (k v : String) (l : List (String × String)) :
    findAssoc k (upsertAssoc k v l) = some v := by
  induction l with
  | nil => simp [upsertAssoc, findAssoc]
  | cons p rest ih =>
    obtain ⟨k2, v2⟩ := p
    by_cases h : k2 = k
    · simp [upsertAssoc, findAssoc, h]
    · simp [upsertAssoc, findAssoc, h, ih]

theorem mem_upsert_self (k v : String) (l : List (String × String)) :
    (k, v) ∈ upsertAssoc k v l := by
  induction l with
  | nil => simp [upsertAssoc]
  | cons p rest ih =>
    obtain ⟨k2, v2⟩ := p
    by_cases h : k2 = k
    · simp [upsertAssoc, h]
    · simp [upsertAssoc, h, ih]

theorem length_upsert_of_mem (k v : String) (l : List (String × String))
    (h : k ∈ l.map Prod.fst) : (upsertAssoc k v l).length = l.length := by
  induction l with
  | nil => simp at h
  | cons p rest ih =>
    obtain ⟨k2, v2⟩ := p
    by_cases hk : k2 = k
    · simp [upsertAssoc, hk]
    · have h2 : k ∈ rest.map Prod.fst := by
        simp at h
        rcases h with h | h
        · exact absurd h.symm hk
        · simpa using h
      simp [upsertAssoc, hk, ih h2]

theorem mem_keys_upsert (a k v : String) (l : List (String × String))
    (h : a ∈ (upsertAssoc k v l).map Prod.fst) : a = k ∨ a ∈ l.map Prod.fst := by
  induction l with
  | nil =>
    simp [upsertAssoc] at h
    exact Or.inl h
  | cons p rest ih =>
    obtain ⟨k2, v2⟩ := p
    by_cases hk : k2 = k
    · simp [upsertAssoc, hk] at h
      rcases h with h | h
      · exact Or.inl h
      · exact Or.inr (by simp [h])
    · simp [upsertAssoc, hk] at h
      rcases h with h | h
      · exact Or.inr (by simp [h])
      · rcases ih (by simpa using h) with h2 | h2
        · exact Or.inl h2
        · exact Or.inr (by simp [h2])

theorem keys_upsert_nodup (k v : String) (l : List (String × String))
    (h : (l.map Prod.fst).Nodup) : ((upsertAssoc k v l).map Prod.fst).Nodup := by
  induction l with
  | nil => simp [upsertAssoc]
  | cons p rest ih =>
    obtain ⟨k2, v2⟩ := p
    rw [List.map_cons, List.nodup_cons] at h
    by_cases hk : k2 = k
    · subst hk
      rw [upsertAssoc, if_pos rfl, List.map_cons, List.nodup_cons]
      exact h
    · have hrest := ih h.2
      have hnot : k2 ∉ (upsertAssoc k v rest).map Prod.fst := by
        intro hmem
        rcases mem_keys_upsert k2 k v rest hmem with h2 | h2
        · exact hk h2
        · exact h.1 h2
      rw [upsertAssoc, if_neg hk, List.map_cons, List.nodup_cons]
      exact ⟨hnot, hrest⟩

/-- C3: `read` immediately after `add(tool, input, output)` returns exactly
`output`; the stored key is the literal hyphen-joined `tool ++ "-" ++ input`;
a second `add` with the same pair silently replaces the value (the new value
is read back) and leaves the number of entries unchanged; key uniqueness (at
most one entry per pair) is preserved. -/
theorem cache_add_read_spec (c : CacheHandler) (t i o o2 : String)
    (h : c.KeysUnique) :
    (c.add t i o).read t i = some o
    ∧ (t ++ "-" ++ i, o) ∈ (c.add t i o).cache
    ∧ ((c.add t i o).add t i o2).cache.length = (c.add t i o).cache.length
    ∧ ((c.add t i o).add t i o2).read t i = some o2
    ∧ (c.add t i o).KeysUnique := by
  refine ⟨?_, ?_, ?_, ?_, ?_⟩
  · exact findAssoc_upsert_self _ _ _
  · exact mem_upsert_self _ _ _
  · refine length_upsert_of_mem _ _ _ ?_
    exact List.mem_map_of_mem Prod.fst (mem_upsert_self _ _ _)
  · exact findAssoc_upsert_self _ _ _
  · exact keys_upsert_nodup _ _ _ h

/-- Witness for C3 at a concrete cache: add then read, overwrite, size. -/
theorem cache_add_read_spec_witness :
    ((CacheHandler.mk []).add "Search" "q" "r1").read "Search" "q" = some "r1"
    ∧ ("Search" ++ "-" ++ "q", "r1") ∈ ((CacheHandler.mk []).add "Search" "q" "r1").cache
    ∧ (((CacheHandler.mk []).add "Search" "q" "r1").add "Search" "q" "r2").cache.length
        = ((CacheHandler.mk []).add "Search" "q" "r1").cache.length
    ∧ (((CacheHandler.mk []).add "Search" "q" "r1").add "Search" "q" "r2").read "Search" "q"
        = some "r2"
    ∧ ((CacheHandler.mk []).add "Search" "q" "r1").KeysUnique :=
  cache_add_read_spec ⟨[]⟩ "Search" "q" "r1" "r2" (by simp [CacheHandler.KeysUnique])

/-- C8: a task declaring no tools inherits its owning agent's tools (a task
whose agent owns `[A, B]` ends with `[A, B]`); a task declaring its own tools
keeps exactly those (the task-declared set overrides the agent's). -/
theorem task_check_tools_spec (t : Task) :
    (∀ a, t.agent = some a → t.tools = [] → (Task.check_tools t).tools = a.tools)
    ∧ (t.tools ≠ [] → (Task.check_tools t).tools = t.tools)
    ∧ (t.agent = none → Task.check_tools t = t) := by
  refine ⟨?_, ?_, ?_⟩
  · intro a ha htools
    by_cases he : a.tools.isEmpty
    · have : a.tools = [] := List.isEmpty_iff.mp he
      simp [Task.check_tools, htools, ha, he, this]
    · simp [Task.check_tools, htools, ha, he]
  · intro htools
    have : ¬ t.tools.isEmpty := by simpa [List.isEmpty_iff] using htools
    simp [Task.check_tools, this]
  · intro ha
    by_cases he : t.tools.isEmpty <;> simp [Task.check_tools, ha, he]

/-- Witness for C8: with agent tools `["A", "B"]`, a task with no tools ends
with `["A", "B"]` and a task declaring `["C"]` keeps `["C"]`. -/
theorem task_check_tools_spec_witness :
    (Task.check_tools ⟨"d", none, some fixtureAgentAB, none, []⟩).tools = ["A", "B"]
    ∧ (Task.check_tools ⟨"d", none, some fixtureAgentAB, none, ["C"]⟩).tools = ["C"] :=
  ⟨(task_check_tools_spec ⟨"d", none, some fixtureAgentAB, none, []⟩).1 fixtureAgentAB rfl rfl,
   (task_check_tools_spec ⟨"d", none, some fixtureAgentAB, none, ["C"]⟩).2.1 (by simp)⟩

/-- C9: an agent constructed with its own (truthy) `max_rpm` builds a personal
controller; the executor's rate gate is bound to that personal controller, and
the crew's later `set_rpm_controller` call is a no-op (it never replaces an
already-present agent-level controller), so the crew-level limiter is bypassed
for that agent. -/
theorem agent_rpm_precedence (n : Nat) (hn : 0 < n) (crewC : RPMState) :
    (Crew.wireAgent (AgentRpmView.construct (some n)) crewC).rpm_controller = some ⟨some n, 0⟩
    ∧ (Crew.wireAgent (AgentRpmView.construct (some n)) crewC).executor_gate = some ⟨some n, 0⟩
    ∧ Crew.wireAgent (AgentRpmView.construct (some n)) crewC
        = (AgentRpmView.construct (some n)).set_cache_handler := by
  have hbne : (n != 0) = true := by
    simp [bne]
    omega
  refine ⟨?_, ?_, ?_⟩ <;>
    simp [Crew.wireAgent, AgentRpmView.construct, AgentRpmView.set_private_attrs,
      AgentRpmView.check_agent_executor, AgentRpmView.set_cache_handler,
      AgentRpmView.create_agent_executor, AgentRpmView.set_rpm_controller, capTruthy, hbne]

/-- Witness for C9: agent cap 3, crew controller cap 10. -/
theorem agent_rpm_precedence_witness :
    (Crew.wireAgent (AgentRpmView.construct (some 3)) ⟨some 10, 0⟩).rpm_controller
        = some ⟨some 3, 0⟩
    ∧ (Crew.wireAgent (AgentRpmView.construct (some 3)) ⟨some 10, 0⟩).executor_gate
        = some ⟨some 3, 0⟩
    ∧ Crew.wireAgent (AgentRpmView.construct (some 3)) ⟨some 10, 0⟩
        = (AgentRpmView.construct (some 3)).set_cache_handler :=
  agent_rpm_precedence 3 (by decide) ⟨some 10, 0⟩

/-- C7: a delegation command that does not split into exactly three
pipe-separated segments, or with an empty segment, returns the
missing-parameter error string; a well-formed command naming an unknown
coworker returns the unknown-coworker error string built from the valid
roles; otherwise the first matching agent's task-execution entry point is
invoked with (task, context) and its textual result returned.  All paths
return a string: no exception is raised. -/
theorem agent_tools_execute_spec (cfg : CrewCfg) (agents : List Agent) (command : String) :
    ((pySplit command "|").length ≠ 3 →
        AgentTools.execute cfg agents command = cfg.agentToolMissingParam)
    ∧ (∀ a t c, pySplit command "|" = [a, t, c] → (a = "" ∨ t = "" ∨ c = "") →
        AgentTools.execute cfg agents command = cfg.agentToolMissingParam)
    ∧ (∀ a t c, pySplit command "|" = [a, t, c] → a ≠ "" → t ≠ "" → c ≠ "" →
        agents.filter (fun x => x.role == a) = [] →
        AgentTools.execute cfg agents command =
          cfg.agentToolUnexsitingCoworker
            (String.intercalate ", " (agents.map fun x => x.role)))
    ∧ (∀ a t c ag rest, pySplit command "|" = [a, t, c] → a ≠ "" → t ≠ "" → c ≠ "" →
        agents.filter (fun x => x.role == a) = ag :: rest →
        AgentTools.execute cfg agents command = (ag.execute_task cfg t c []).result) := by
  refine ⟨?_, ?_, ?_, ?_⟩
  · intro h
    rcases hsp : pySplit command "|" with _ | ⟨x1, _ | ⟨x2, _ | ⟨x3, _ | ⟨x4, l⟩⟩⟩⟩
    · simp only [AgentTools.execute, hsp]
    · simp only [AgentTools.execute, hsp]
    · simp only [AgentTools.execute, hsp]
    · exact absurd (by rw [hsp]; rfl) h
    · simp only [AgentTools.execute, hsp]
  · intro a t c heq hempty
    simp only [AgentTools.execute, heq]
    rcases hempty with h | h | h <;> simp [h]
  · intro a t c heq ha ht hc hfilter
    simp only [AgentTools.execute, heq, hfilter]
    simp [ha, ht, hc]
  · intro a t c ag rest heq ha ht hc hfilter
    simp only [AgentTools.execute, heq, hfilter]
    simp [ha, ht, hc]

theorem withDelegation_agent (t : Task) : t.withDelegation.agent = t.agent := by
  rcases ha : t.agent with _ | a
  · simp [Task.withDelegation, ha]
  · by_cases hd : a.allow_delegation <;> simp [Task.withDelegation, ha, hd]

theorem withDelegation_context (t : Task) : t.withDelegation.context = t.context := by
  rcases ha : t.agent with _ | a
  · simp [Task.withDelegation, ha]
  · by_cases hd : a.allow_delegation <;> simp [Task.withDelegation, ha, hd]

theorem withDelegation_promptOf (cfg : CrewCfg) (t : Task) :
    t.withDelegation.promptOf cfg = t.promptOf cfg := by
  rcases ha : t.agent with _ | a
  · simp [Task.withDelegation, ha]
  · by_cases hd : a.allow_delegation <;> simp [Task.withDelegation, ha, hd, Task.promptOf]

theorem optionTraverse_getElem_all_lt (l : List String) (ps : List Nat)
    (h : ∀ p ∈ ps, p < l.length) :
    optionTraverse (fun p => l[p]?) ps
      = some (ps.map fun p => l[p]?.getD "") := by
  induction ps with
  | nil => rfl
  | cons p rest ih =>
    have hp : p < l.length := h p (List.mem_cons_self p rest)
    have h2 := ih fun q hq => h q (List.mem_cons_of_mem p hq)
    rcases hg : l[p]? with _ | x
    · rw [List.getElem?_eq_getElem hp] at hg
      simp at hg
    · simp [optionTraverse, hg, h2]

/-- The implementation of the sequential scheduler refines its spec-side
description on well-formed task lists, for any starting state. -/
theorem runSeqAux_eq_spec (cfg : CrewCfg) (tasks : List Task) :
    ∀ (prev : List String) (hist : String),
      Crew.seqWF prev.length tasks = true →
      Crew.runSeqAux cfg prev hist tasks =
        Except.ok (Crew.seqSpecAux cfg prev hist tasks) := by
  induction tasks with
  | nil => intro prev hist _; rfl
  | cons t rest ih =>
    intro prev hist h
    rw [Crew.seqWF, Bool.and_eq_true, Bool.and_eq_true] at h
    obtain ⟨⟨hagent, hctx⟩, hrest⟩ := h
    obtain ⟨a, ha⟩ := Option.isSome_iff_exists.mp hagent
    have ha2 : t.withDelegation.agent = some a := by rw [withDelegation_agent, ha]
    have hwf2 : ∀ x : String, Crew.seqWF (prev ++ [x]).length rest = true := by
      intro x
      simpa using hrest
    rcases hc : t.context with _ | ps
    · have hres : t.withDelegation.resolveContext prev hist = some hist := by
        simp [Task.resolveContext, withDelegation_context, hc]
      simp only [Crew.runSeqAux, Crew.seqSpecAux, Task.execute, Option.none_orElse,
        ha2, hres, hc]
      rw [ih _ _ (hwf2 _)]
    · by_cases hps : ps.isEmpty
      · have hres : t.withDelegation.resolveContext prev hist = some hist := by
          simp [Task.resolveContext, withDelegation_context, hc, hps]
        simp only [Crew.runSeqAux, Crew.seqSpecAux, Task.execute, Option.none_orElse,
          ha2, hres, hc, hps, if_true]
        rw [ih _ _ (hwf2 _)]
      · have hall : ∀ p ∈ ps, p < prev.length := by
          rw [hc] at hctx
          simp only [List.all_eq_true, decide_eq_true_eq] at hctx
          exact hctx
        have hps2 : ps.isEmpty = false := by simpa using hps
        have hres : t.withDelegation.resolveContext prev hist =
            some (String.intercalate "\n" (ps.map fun p => prev[p]?.getD "")) := by
          simp [Task.resolveContext, withDelegation_context, hc, hps2,
            optionTraverse_getElem_all_lt prev ps hall]
        simp only [Crew.runSeqAux, Crew.seqSpecAux, Task.execute, Option.none_orElse,
          ha2, hres, hc, hps2]
        rw [ih _ _ (hwf2 _)]
        simp [hps2]

/-- C4: under sequential scheduling on a well-formed task list (every task has
an agent and declared predecessors point at earlier tasks), the run equals the
spec-side description `Crew.seqSpec`: each task executes with context equal to
the immediately preceding task's raw output (only the latest output, starting
from `""`), except that a task declaring predecessor tasks receives the
newline-joined results of those predecessors in stored order; the crew run
returns the last task's output. -/
theorem sequential_context_chaining (cfg : CrewCfg) (tasks : List Task)
    (h : Crew.seqWF 0 tasks = true) :
    Crew.runSequential cfg tasks = Except.ok (Crew.seqSpec cfg tasks) :=
  runSeqAux_eq_spec cfg tasks [] "" h

/-- Witness for C4 at three concrete chained tasks (the third declaring the
first two as predecessors). -/
theorem sequential_context_chaining_witness :
    Crew.runSequential fixtureCfg fixtureSeqTasks
      = Except.ok (Crew.seqSpec fixtureCfg fixtureSeqTasks) :=
  sequential_context_chaining fixtureCfg fixtureSeqTasks (by decide)

/-- C5 (evaluation of the code at the failing input): under hierarchical
scheduling, a task owning an agent is executed by that agent — the record
carries the worker's role and the worker's answer, not the manager's — and a
task owning no agent makes the run fail with the `NoneType` attribute error,
even though the synthesized manager was passed as override.  This is
`task.py` line 116 calling `self.agent.execute_task` instead of the resolved
`agent`. -/
theorem hierarchical_manager_bypassed :
    Crew.runHierarchical fixtureCfg [⟨"do it", none, some fixtureAgent, none, []⟩]
      = Except.ok ([⟨"Researcher", "do it", "", [], "researcher answer"⟩], "researcher answer")
    ∧ (Crew.mkManager fixtureCfg).role = "Crew Manager"
    ∧ Crew.runHierarchical fixtureCfg [⟨"orphan", none, none, none, []⟩]
      = Except.error RunError.noneAgentAttribute :=
  ⟨rfl, rfl, rfl⟩

theorem exceptTraverse_error_mem {α β ε : Type} (f : α → Except ε β) (l : List α) (e : ε)
    (h : exceptTraverse f l = .error e) : ∃ x ∈ l, f x = .error e := by
  induction l with
  | nil => simp [exceptTraverse] at h
  | cons y rest ih =>
    rcases hy : f y with e2 | b
    · simp only [exceptTraverse, hy, Except.error.injEq] at h
      exact ⟨y, List.mem_cons_self y rest, by rw [hy, h]⟩
    · rcases hm : exceptTraverse f rest with e2 | bs
      · simp only [exceptTraverse, hy, hm, Except.error.injEq] at h
        subst h
        obtain ⟨x, hx, hfx⟩ := ih hm
        exact ⟨x, List.mem_cons_of_mem y hx, hfx⟩
      · simp [exceptTraverse, hy, hm] at h

theorem exceptTraverse_ne_ok {α β ε : Type} (f : α → Except ε β) (l : List α) (x : α)
    (hx : x ∈ l) (e : ε) (he : f x = .error e) :
    ∀ ys, exceptTraverse f l ≠ Except.ok ys := by
  induction l with
  | nil => simp at hx
  | cons y rest ih =>
    intro ys hcon
    rcases List.mem_cons.mp hx with hxy | hxr
    · subst hxy
      simp [exceptTraverse, he] at hcon
    · rcases hy : f y with e2 | b
      · simp [exceptTraverse, hy] at hcon
      · rcases hm : exceptTraverse f rest with e2 | bs
        · simp [exceptTraverse, hy, hm] at hcon
        · exact ih hxr bs hm

theorem create_task_traverse_ok (agents : List AgentCfg) (tcs : List TaskCfg)
    (h : ∀ tc ∈ tcs, (agents.find? fun a => a.role == tc.agent).isSome = true) :
    exceptTraverse (Crew.create_task agents) tcs =
      Except.ok (tcs.map fun tc =>
        ⟨tc.description, agents.find? fun a => a.role == tc.agent⟩) := by
  induction tcs with
  | nil => rfl
  | cons tc rest ih =>
    obtain ⟨ag, hag⟩ :=
      Option.isSome_iff_exists.mp (h tc (List.mem_cons_self tc rest))
    have h1 : Crew.create_task agents tc = Except.ok ⟨tc.description, some ag⟩ := by
      rw [Crew.create_task, hag]
    have h2 := ih fun q hq => h q (List.mem_cons_of_mem tc hq)
    simp [exceptTraverse, h1, h2, hag]

theorem setup_from_config_ne_missing_keys (cfg : CrewConfigDict) :
    Crew.setup_from_config cfg ≠ Except.error .missing_keys := by
  unfold Crew.setup_from_config
  split
  · simp
  · rcases hm : exceptTraverse (Crew.create_task (cfg.agents.getD [])) (cfg.tasks.getD [])
      with e | ts
    · obtain ⟨x, _, hfx⟩ := exceptTraverse_error_mem _ _ _ hm
      unfold Crew.create_task at hfx
      rcases hf : (cfg.agents.getD []).find? fun a => a.role == x.agent with _ | ag
      · rw [hf] at hfx
        simp at hfx
        simp [hm, ← hfx]
      · rw [hf] at hfx
        simp at hfx
    · simp [hm]

/-- C6 counterexample: a crew constructed with one agent, no tasks and no
config succeeds, although the claim requires construction to fail whenever no
non-empty (agents, tasks) pair and no config is given. -/
theorem crew_check_config_counterexample :
    Crew.check_config none [⟨"r", "g", "b"⟩] [] = Except.ok ([⟨"r", "g", "b"⟩], []) := rfl

/-- C6 amended: the missing-keys error is raised exactly when config, agents
and tasks are all absent/empty (in particular a non-empty agents list alone
constructs); a config with an absent or empty `agents` or `tasks` entry
raises the config error naming both required keys; a config task whose role
matches no configured agent makes construction fail; when every config task's
role resolves, construction succeeds and each task is bound to the first
matching agent. -/
theorem crew_check_config_amended (config : Option CrewConfigDict)
    (agents : List AgentCfg) (tasks : List ConstructedTask) :
    (Crew.check_config config agents tasks = Except.error .missing_keys
        ↔ (config = none ∧ agents = [] ∧ tasks = []))
    ∧ (∀ cfg, config = some cfg →
        (optListFalsy cfg.agents || optListFalsy cfg.tasks) = true →
        Crew.check_config config agents tasks = Except.error .missing_keys_in_config)
    ∧ (∀ cfg, config = some cfg →
        (optListFalsy cfg.agents || optListFalsy cfg.tasks) = false →
        ∀ tc ∈ cfg.tasks.getD [], (∀ ag ∈ cfg.agents.getD [], ag.role ≠ tc.agent) →
        ∀ res, Crew.check_config config agents tasks ≠ Except.ok res)
    ∧ (∀ cfg, config = some cfg →
        (optListFalsy cfg.agents || optListFalsy cfg.tasks) = false →
        (∀ tc ∈ cfg.tasks.getD [],
          ((cfg.agents.getD []).find? fun a => a.role == tc.agent).isSome = true) →
        Crew.check_config config agents tasks =
          Except.ok (cfg.agents.getD [], (cfg.tasks.getD []).map fun tc =>
            ⟨tc.description, (cfg.agents.getD []).find? fun a => a.role == tc.agent⟩)) := by
  refine ⟨?_, ?_, ?_, ?_⟩
  · constructor
    · intro h
      unfold Crew.check_config at h
      by_cases hcond : (config.isNone && tasks.isEmpty && agents.isEmpty) = true
      · simp only [Bool.and_eq_true, Option.isNone_iff_eq_none, List.isEmpty_iff] at hcond
        exact ⟨hcond.1.1, hcond.2, hcond.1.2⟩
      · rw [if_neg (by simpa using hcond)] at h
        rcases hcfg : config with _ | cfg
        · rw [hcfg] at h
          simp at h
        · rw [hcfg] at h
          exact absurd h (setup_from_config_ne_missing_keys cfg)
    · rintro ⟨h1, h2, h3⟩
      subst h1; subst h2; subst h3
      rfl
  · intro cfg hcfg hfalsy
    subst hcfg
    unfold Crew.check_config
    simp only [Option.isNone_some, Bool.false_and, if_false, Bool.false_eq_true,
      ite_false]
    unfold Crew.setup_from_config
    rw [if_pos hfalsy]
  · intro cfg hcfg hfalsy tc htc hnomatch res hcon
    subst hcfg
    unfold Crew.check_config at hcon
    simp only [Option.isNone_some, Bool.false_and, Bool.false_eq_true, if_false,
      ite_false] at hcon
    unfold Crew.setup_from_config at hcon
    rw [if_neg (by simp [hfalsy])] at hcon
    have hfind : ((cfg.agents.getD []).find? fun a => a.role == tc.agent) = none := by
      rw [List.find?_eq_none]
      intro ag hag
      simp [hnomatch ag hag]
    have herr : Crew.create_task (cfg.agents.getD []) tc
        = Except.error (.no_matching_agent tc.agent) := by
      rw [Crew.create_task, hfind]
    rcases hm : exceptTraverse (Crew.create_task (cfg.agents.getD [])) (cfg.tasks.getD [])
      with e | ts
    · rw [hm] at hcon
      simp at hcon
    · exact exceptTraverse_ne_ok _ _ tc htc _ herr ts hm
  · intro cfg hcfg hfalsy hres
    subst hcfg
    unfold Crew.check_config
    simp only [Option.isNone_some, Bool.false_and, Bool.false_eq_true, if_false,
      ite_false]
    unfold Crew.setup_from_config
    rw [if_neg (by simp [hfalsy]), create_task_traverse_ok _ _ hres]

theorem iter_next_step_recorded (cfg : ExecutorCfg) (ca : Bool) (steps : List ExStep)
    (it : Nat) (ns : List ExStep) (f ca2 : Bool)
    (h : Executor.iter_next_step cfg ca steps it = .recorded ns f ca2) :
    f = Executor.should_force_answer cfg it
    ∧ (f = true → ns.map (fun s => s.observation) = [cfg.usedTooManyToolsMessage]) := by
  unfold Executor.iter_next_step at h
  rcases hp : cfg.plan steps with text | a | a | obs <;> rw [hp] at h <;> dsimp only at h
  · by_cases hf : Executor.should_force_answer cfg it = true
    · rw [if_pos hf] at h
      exact absurd h (by simp)
    · rw [if_neg hf] at h
      exact absurd h (by simp)
  · by_cases hf : Executor.should_force_answer cfg it = true
    · rw [if_pos hf] at h
      injection h with h1 h2 h3
      subst h1; subst h2
      exact ⟨hf.symm, fun _ => by simp⟩
    · rw [if_neg hf] at h
      injection h with h1 h2 h3
      subst h1; subst h2
      rw [Bool.not_eq_true] at hf
      exact ⟨hf.symm, fun hcon => by simp at hcon⟩
  · by_cases hf : Executor.should_force_answer cfg it = true
    · rw [if_pos hf] at h
      injection h with h1 h2 h3
      subst h1; subst h2
      exact ⟨hf.symm, fun _ => by simp⟩
    · rw [if_neg hf] at h
      injection h with h1 h2 h3
      subst h1; subst h2
      rw [Bool.not_eq_true] at hf
      exact ⟨hf.symm, fun hcon => by simp at hcon⟩
  · by_cases hf : Executor.should_force_answer cfg it = true
    · rw [if_pos hf] at h
      injection h with h1 h2 h3
      subst h1; subst h2
      exact ⟨hf.symm, fun _ => by simp⟩
    · rw [if_neg hf] at h
      injection h with h1 h2 h3
      subst h1; subst h2
      rw [Bool.not_eq_true] at hf
      exact ⟨hf.symm, fun hcon => by simp at hcon⟩

/-- Every record produced by one loop pass carries the pass's iteration
counter, is forced exactly at the force threshold, and a forced record's only
observation is the used-too-many-tools message. -/
theorem loopStep_record (cfg : ExecutorCfg) (ca : Bool) (steps : List ExStep) (it : Nat) :
    (∀ r out, Executor.loopStep cfg ca steps it = .directReturn r out →
      r.iteration = it ∧ r.forced = Executor.should_force_answer cfg it
      ∧ (r.forced = true →
          r.newSteps.map (fun s => s.observation) = [cfg.usedTooManyToolsMessage]))
    ∧ (∀ r steps2 ca2, Executor.loopStep cfg ca steps it = .next r steps2 ca2 →
      r.iteration = it ∧ r.forced = Executor.should_force_answer cfg it
      ∧ (r.forced = true →
          r.newSteps.map (fun s => s.observation) = [cfg.usedTooManyToolsMessage])) := by
  rcases hi : Executor.iter_next_step cfg ca steps it with text | ⟨ns, f, ca2x⟩ | msg
  · constructor
    · intro r out h2
      rw [Executor.loopStep, hi] at h2
      exact absurd h2 (by simp)
    · intro r steps2 ca2 h2
      rw [Executor.loopStep, hi] at h2
      exact absurd h2 (by simp)
  · obtain ⟨hf, hobs⟩ := iter_next_step_recorded cfg ca steps it ns f ca2x hi
    have key : ∀ (r : IterRecord), r = ⟨it, f, ns⟩ →
        r.iteration = it ∧ r.forced = Executor.should_force_answer cfg it
        ∧ (r.forced = true →
            r.newSteps.map (fun s => s.observation) = [cfg.usedTooManyToolsMessage]) := by
      rintro r rfl
      exact ⟨rfl, hf, hobs⟩
    constructor
    · intro r out h2
      rw [Executor.loopStep, hi] at h2
      dsimp only at h2
      rcases hg : Executor.stepToolReturn cfg ns with _ | outv <;> rw [hg] at h2
      · exact absurd h2 (by simp)
      · injection h2 with h3 h4
        exact key r h3.symm
    · intro r steps2 ca2 h2
      rw [Executor.loopStep, hi] at h2
      dsimp only at h2
      rcases hg : Executor.stepToolReturn cfg ns with _ | outv <;> rw [hg] at h2
      · injection h2 with h3 h4 h5
        exact key r h3.symm
      · exact absurd h2 (by simp)
  · constructor
    · intro r out h2
      rw [Executor.loopStep, hi] at h2
      exact absurd h2 (by simp)
    · intro r steps2 ca2 h2
      rw [Executor.loopStep, hi] at h2
      exact absurd h2 (by simp)

/-- The loop makes at most `fuel` plan calls and yields at most one record
per plan call. -/
theorem callLoopAux_counts (cfg : ExecutorCfg) :
    ∀ (fuel it : Nat) (steps : List ExStep) (ca : Bool),
      (Executor.callLoopAux cfg fuel it steps ca).planCalls ≤ fuel
      ∧ (Executor.callLoopAux cfg fuel it steps ca).records.length
          ≤ (Executor.callLoopAux cfg fuel it steps ca).planCalls := by
  intro fuel
  induction fuel with
  | zero =>
    intro it steps ca
    simp [Executor.callLoopAux]
  | succ fuel ih =>
    intro it steps ca
    by_cases hlt : it < cfg.max_iterations
    · rw [Executor.callLoopAux, if_pos hlt]
      rcases hs : Executor.loopStep cfg ca steps it with o | ⟨rv, out⟩ | ⟨rv, steps2, ca2⟩ <;>
        dsimp only
      · exact ⟨by omega, by simp⟩
      · exact ⟨by omega, by simp⟩
      · obtain ⟨ih1, ih2⟩ := ih (it + 1) steps2 ca2
        refine ⟨?_, ?_⟩
        · dsimp only
          omega
        · dsimp only [List.length_cons]
          omega
    · rw [Executor.callLoopAux, if_neg hlt]
      simp

/-- The iterations of the recorded passes are consecutive from the starting
counter. -/
theorem callLoopAux_iterations (cfg : ExecutorCfg) :
    ∀ (fuel it : Nat) (steps : List ExStep) (ca : Bool),
      (Executor.callLoopAux cfg fuel it steps ca).records.map (fun r => r.iteration)
        = List.range' it (Executor.callLoopAux cfg fuel it steps ca).records.length := by
  intro fuel
  induction fuel with
  | zero =>
    intro it steps ca
    simp [Executor.callLoopAux, List.range']
  | succ fuel ih =>
    intro it steps ca
    by_cases hlt : it < cfg.max_iterations
    · rw [Executor.callLoopAux, if_pos hlt]
      rcases hs : Executor.loopStep cfg ca steps it with o | ⟨rv, out⟩ | ⟨rv, steps2, ca2⟩ <;>
        dsimp only
      · rfl
      · have hit : rv.iteration = it := ((loopStep_record cfg ca steps it).1 rv out hs).1
        simp only [List.map_cons, List.map_nil, List.length_cons, List.length_nil, hit]
        rfl
      · have hit : rv.iteration = it :=
          ((loopStep_record cfg ca steps it).2 rv steps2 ca2 hs).1
        simp only [List.map_cons, List.length_cons, hit, ih (it + 1) steps2 ca2]
        rfl
    · rw [Executor.callLoopAux, if_neg hlt]
      simp [List.range']

/-- Every record of a run is forced exactly at its own iteration's force
threshold, with the fixed observation when forced. -/
theorem callLoopAux_forced (cfg : ExecutorCfg) :
    ∀ (fuel it : Nat) (steps : List ExStep) (ca : Bool),
      ∀ r ∈ (Executor.callLoopAux cfg fuel it steps ca).records,
        r.forced = Executor.should_force_answer cfg r.iteration
        ∧ (r.forced = true →
            r.newSteps.map (fun s => s.observation) = [cfg.usedTooManyToolsMessage]) := by
  intro fuel
  induction fuel with
  | zero =>
    intro it steps ca
    simp [Executor.callLoopAux]
  | succ fuel ih =>
    intro it steps ca
    by_cases hlt : it < cfg.max_iterations
    · rw [Executor.callLoopAux, if_pos hlt]
      rcases hs : Executor.loopStep cfg ca steps it with o | ⟨rv, out⟩ | ⟨rv, steps2, ca2⟩ <;>
        dsimp only
      · simp
      · intro r hr
        rw [List.mem_singleton] at hr
        subst hr
        obtain ⟨h1, h2, h3⟩ := (loopStep_record cfg ca steps it).1 r out hs
        exact ⟨h1 ▸ h2, h3⟩
      · intro r hr
        rcases List.mem_cons.mp hr with hr0 | hrrest
        · subst hr0
          obtain ⟨h1, h2, h3⟩ := (loopStep_record cfg ca steps it).2 r steps2 ca2 hs
          exact ⟨h1 ▸ h2, h3⟩
        · exact ih (it + 1) steps2 ca2 r hrrest
    · rw [Executor.callLoopAux, if_neg hlt]
      simp

/-- At most one element of a list with pairwise-distinct iterations can
satisfy an iteration-determined flag. -/
theorem filter_forced_le_one (c : Int) (l : List IterRecord)
    (hnodup : (l.map (fun r => r.iteration)).Nodup)
    (hiff : ∀ r ∈ l, r.forced = true ↔ (r.iteration : Int) = c) :
    (l.filter (fun r => r.forced)).length ≤ 1 := by
  induction l with
  | nil => simp
  | cons r rest ih =>
    rw [List.map_cons, List.nodup_cons] at hnodup
    by_cases hf : r.forced = true
    · have hc := (hiff r (List.mem_cons_self r rest)).mp hf
      have hrest : ∀ r2 ∈ rest, ¬ (r2.forced = true) := by
        intro r2 hr2 hf2
        have hc2 := (hiff r2 (List.mem_cons_of_mem r hr2)).mp hf2
        have heq : r2.iteration = r.iteration := by omega
        exact hnodup.1 (heq ▸ List.mem_map_of_mem (fun r => r.iteration) hr2)
      have hfil : rest.filter (fun r => r.forced) = [] := by
        rw [List.filter_eq_nil_iff]
        intro r2 hr2
        simpa using hrest r2 hr2
      simp [hf, hfil]
    · have hstep : (r :: rest).filter (fun r => r.forced)
          = rest.filter (fun r => r.forced) := by
        simp [hf]
      rw [hstep]
      exact ih hnodup.2 fun r2 h2 => hiff r2 (List.mem_cons_of_mem r h2)

/-- C1 (amended): in every executor run, at most `max_iterations` plan steps
execute; a record is forced exactly when its iteration counter equals the
Python integer `max_iterations - 2`, so the forced-answer transition fires at
most once, and exactly once in any run that reaches that counter; the forced
step's only observation is the fixed used-too-many-tools notice.  (As the
counterexample shows, the claim's further assertions — that the transition
also fires for a final-answer proposal and that the loop stops right after
forcing — do not hold.) -/
theorem executor_force_answer (cfg : ExecutorCfg) :
    (Executor.run cfg).planCalls ≤ cfg.max_iterations
    ∧ (Executor.run cfg).records.length ≤ cfg.max_iterations
    ∧ (∀ r ∈ (Executor.run cfg).records,
        r.forced = true ↔ (r.iteration : Int) = (cfg.max_iterations : Int) - 2)
    ∧ ((Executor.run cfg).records.filter (fun r => r.forced)).length ≤ 1
    ∧ (∀ r ∈ (Executor.run cfg).records, r.forced = true →
        r.newSteps.map (fun s => s.observation) = [cfg.usedTooManyToolsMessage])
    ∧ ((∃ r ∈ (Executor.run cfg).records,
          (r.iteration : Int) = (cfg.max_iterations : Int) - 2) →
        ((Executor.run cfg).records.filter (fun r => r.forced)).length = 1) := by
  obtain ⟨hp, hr⟩ := callLoopAux_counts cfg cfg.max_iterations 0 [] false
  have hforced : ∀ r ∈ (Executor.run cfg).records,
      r.forced = Executor.should_force_answer cfg r.iteration
      ∧ (r.forced = true →
          r.newSteps.map (fun s => s.observation) = [cfg.usedTooManyToolsMessage]) :=
    callLoopAux_forced cfg cfg.max_iterations 0 [] false
  have hiter : (Executor.run cfg).records.map (fun r => r.iteration)
      = List.range' 0 (Executor.run cfg).records.length :=
    callLoopAux_iterations cfg cfg.max_iterations 0 [] false
  have hiff : ∀ r ∈ (Executor.run cfg).records,
      r.forced = true ↔ (r.iteration : Int) = (cfg.max_iterations : Int) - 2 := by
    intro r hr2
    rw [(hforced r hr2).1]
    unfold Executor.should_force_answer
    exact decide_eq_true_iff
  have hnodup : ((Executor.run cfg).records.map (fun r => r.iteration)).Nodup := by
    rw [hiter]
    exact List.nodup_range' _ _
  have hle1 : ((Executor.run cfg).records.filter (fun r => r.forced)).length ≤ 1 :=
    filter_forced_le_one _ _ hnodup hiff
  refine ⟨hp, le_trans hr hp, hiff, hle1, ?_, ?_⟩
  · intro r hr2
    exact (hforced r hr2).2
  · rintro ⟨r, hr2, hc⟩
    have hf : r.forced = true := (hiff r hr2).mpr hc
    have hmem : r ∈ (Executor.run cfg).records.filter (fun r => r.forced) :=
      List.mem_filter.mpr ⟨hr2, hf⟩
    have hpos : 0 < ((Executor.run cfg).records.filter (fun r => r.forced)).length :=
      List.length_pos.mpr (List.ne_nil_of_mem hmem)
    omega

/-- C1 counterexample, refuting the claim as stated at a concrete input: with
`max_iterations = 4` and a planner that always proposes a tool action, the
forced step occurs at iteration 2 (= 4 - 2) but the loop does NOT stop there:
a fourth (non-forced) plan step runs afterwards and the run ends by iteration
exhaustion.  Moreover with `max_iterations = 2` and a planner that proposes a
final answer at the threshold, the executor raises "Unexpected output type"
instead of forcing an answer — the transition does not fire "regardless of
what the plan step proposed". -/
theorem executor_force_answer_counterexample :
    (Executor.run fixtureExecCfg).records.length = 4
    ∧ ((Executor.run fixtureExecCfg).records[2]?).map (fun r => r.forced) = some true
    ∧ ((Executor.run fixtureExecCfg).records[3]?).map (fun r => r.forced) = some false
    ∧ (Executor.run fixtureExecCfg).outcome = ExOutcome.stoppedEarly
    ∧ (Executor.run fixtureFinishCfg).outcome
        = ExOutcome.failure "Unexpected output type from agent" := by
  decide

/-- Witness for C1 (the amended theorem has hypotheses inside): at the
concrete run of `fixtureExecCfg` the forced transition fires exactly once. -/
theorem executor_force_answer_witness :
    ((Executor.run fixtureExecCfg).records.filter (fun r => r.forced)).length = 1 :=
  (executor_force_answer fixtureExecCfg).2.2.2.2.2 (by decide)

/-- Witness for C6 at concrete configurations: all-empty construction fails
with the missing-keys error; a config lacking `tasks` fails with the config
error; a config task naming an unknown role cannot construct; a good config
constructs and binds the task to the matching agent. -/
theorem crew_check_config_amended_witness :
    Crew.check_config none [] [] = Except.error .missing_keys
    ∧ Crew.check_config (some fixtureNoTasksConfig) [] []
        = Except.error .missing_keys_in_config
    ∧ Crew.check_config (some fixtureBadRoleConfig) [] []
        ≠ Except.ok ([fixtureAgentCfg], [⟨"t1", some fixtureAgentCfg⟩])
    ∧ Crew.check_config (some fixtureGoodConfig) [] []
        = Except.ok ([fixtureAgentCfg], [⟨"t1", some fixtureAgentCfg⟩]) :=
  ⟨(crew_check_config_amended none [] []).1.mpr ⟨rfl, rfl, rfl⟩,
   (crew_check_config_amended (some fixtureNoTasksConfig) [] []).2.1
      fixtureNoTasksConfig rfl (by decide),
   (crew_check_config_amended (some fixtureBadRoleConfig) [] []).2.2.1
      fixtureBadRoleConfig rfl (by decide) ⟨"t1", "Ghost"⟩ (by decide)
      (by decide) ([fixtureAgentCfg], [⟨"t1", some fixtureAgentCfg⟩]),
   (crew_check_config_amended (some fixtureGoodConfig) [] []).2.2.2
      fixtureGoodConfig rfl (by decide) (by decide)⟩

/-- Witness for C7: a valid command, a two-segment command, an unknown
coworker. -/
theorem agent_tools_execute_spec_witness :
    AgentTools.execute fixtureCfg [fixtureAgent] "Researcher|do|ctx"
        = (fixtureAgent.execute_task fixtureCfg "do" "ctx" []).result
    ∧ AgentTools.execute fixtureCfg [fixtureAgent] "Researcher|do" = "MISSING_PARAM"
    ∧ AgentTools.execute fixtureCfg [fixtureAgent] "Ghost|do|ctx"
        = "UNKNOWN_COWORKER:Researcher" :=
  ⟨(agent_tools_execute_spec fixtureCfg [fixtureAgent] "Researcher|do|ctx").2.2.2
      "Researcher" "do" "ctx" fixtureAgent [] (by decide) (by decide) (by decide) (by decide) rfl,
   (agent_tools_execute_spec fixtureCfg [fixtureAgent] "Researcher|do").1 (by decide),
   (agent_tools_execute_spec fixtureCfg [fixtureAgent] "Ghost|do|ctx").2.2.1
      "Ghost" "do" "ctx" (by decide) (by decide) (by decide) (by decide) rfl⟩

theorem stringMk_data (s : String) : String.mk s.data = s := rfl

/-- A prefix of `a ++ b` is either a prefix of `a` or consumes all of `a` and
continues into `b`. -/
theorem prefix_append_cases (sep a b : List Char) (h : sep <+: a ++ b) :
    (sep.length ≤ a.length ∧ sep <+: a)
    ∨ (a.length < sep.length ∧ sep.take a.length = a ∧ sep.drop a.length <+: b) := by
  by_cases hlen : sep.length ≤ a.length
  · exact Or.inl ⟨hlen, List.prefix_of_prefix_length_le h (List.prefix_append a b) hlen⟩
  · push_neg at hlen
    obtain ⟨t, ht⟩ := h
    refine Or.inr ⟨hlen, ?_, ?_⟩
    · have ha : a <+: sep ++ t := ht ▸ List.prefix_append a b
      have ha2 : a <+: sep :=
        List.prefix_of_prefix_length_le ha (List.prefix_append sep t) (le_of_lt hlen)
      exact (List.prefix_iff_eq_take.mp ha2).symm
    · have hd := congrArg (List.drop a.length) ht
      rw [List.drop_append_of_le_length (le_of_lt hlen), List.drop_left] at hd
      exact ⟨t, hd⟩

/-- An occurrence of `sep` inside `a ++ b` lies in `a`, lies in `b`, or
straddles the boundary: a proper non-empty front of `sep` is a suffix of `a`
and the rest of `sep` is a prefix of `b`. -/
theorem hasSubstr_append_cases (sep : List Char) :
    ∀ (a b : List Char), hasSubstr sep (a ++ b) = true →
      hasSubstr sep a = true ∨ hasSubstr sep b = true
      ∨ ∃ k, 0 < k ∧ k < sep.length ∧ sep.take k <:+ a ∧ sep.drop k <+: b := by
  intro a
  induction a with
  | nil =>
    intro b h
    rw [List.nil_append] at h
    exact Or.inr (Or.inl h)
  | cons c a2 ih =>
    intro b h
    rw [List.cons_append, hasSubstr, Bool.or_eq_true] at h
    rcases h with hpre | hrest
    · have hp : sep <+: (c :: a2) ++ b := by
        rw [List.cons_append]
        exact List.isPrefixOf_iff_prefix.mp hpre
      rcases prefix_append_cases sep (c :: a2) b hp with ⟨hlen, hpa⟩ | ⟨hlen, htake, hdrop⟩
      · left
        rw [hasSubstr, Bool.or_eq_true]
        exact Or.inl (List.isPrefixOf_iff_prefix.mpr hpa)
      · refine Or.inr (Or.inr ⟨(c :: a2).length, by simp, hlen, ?_, hdrop⟩)
        rw [htake]
    · rcases ih b hrest with h1 | h1 | ⟨k, hk1, hk2, hk3, hk4⟩
      · left
        rw [hasSubstr, Bool.or_eq_true]
        exact Or.inr h1
      · exact Or.inr (Or.inl h1)
      · exact Or.inr (Or.inr ⟨k, hk1, hk2, hk3.trans (List.suffix_cons c a2), hk4⟩)

/-- `pySplitAux` does not depend on the fuel once it covers the list. -/
theorem pySplitAux_fuel_eq (sep : List Char) :
    ∀ (fuel1 : Nat) (l acc : List Char) (fuel2 : Nat),
      l.length ≤ fuel1 → l.length ≤ fuel2 →
      pySplitAux sep fuel1 l acc = pySplitAux sep fuel2 l acc := by
  intro fuel1
  induction fuel1 with
  | zero =>
    intro l acc fuel2 h1 _
    have hl : l = [] := List.length_eq_zero.mp (Nat.le_zero.mp h1)
    subst hl
    cases fuel2 <;> rfl
  | succ fuel1 ih =>
    intro l acc fuel2 h1 h2
    cases l with
    | nil => cases fuel2 <;> rfl
    | cons c rest =>
      cases fuel2 with
      | zero => simp at h2
      | succ fuel2 =>
        simp only [List.length_cons] at h1 h2
        have hdroplen : (rest.drop (sep.length - 1)).length ≤ rest.length := by
          rw [List.length_drop]
          omega
        simp only [pySplitAux]
        by_cases hp : sep.isPrefixOf (c :: rest) = true
        · rw [if_pos hp, if_pos hp]
          have := ih (rest.drop (sep.length - 1)) [] fuel2 (by omega) (by omega)
          rw [this]
        · rw [if_neg hp, if_neg hp]
          exact ih rest (c :: acc) fuel2 (by omega) (by omega)

/-- Scanning a list free of the separator yields a single segment. -/
theorem pySplitAux_no_occur (sep : List Char) :
    ∀ (l acc : List Char) (fuel : Nat),
      l.length ≤ fuel → hasSubstr sep l = false →
      pySplitAux sep fuel l acc = [acc.reverse ++ l] := by
  intro l
  induction l with
  | nil =>
    intro acc fuel _ _
    cases fuel <;> simp [pySplitAux]
  | cons c rest ih =>
    intro acc fuel h1 h2
    cases fuel with
    | zero => simp at h1
    | succ fuel =>
      have h2s : sep.isPrefixOf (c :: rest) = false ∧ hasSubstr sep rest = false := by
        simpa [hasSubstr] using h2
      simp only [List.length_cons] at h1
      simp only [pySplitAux]
      rw [if_neg (by simp [h2s.1])]
      rw [ih (c :: acc) fuel (by omega) h2s.2]
      simp

/-- Splitting `nm ++ sep ++ tl`, with no occurrence of `sep` in `nm` and a
separator that cannot overlap itself, closes the segment `nm` exactly at the
junction and continues scanning `tl`. -/
theorem pySplitAux_junction (sep : List Char) (hsep : sep ≠ [])
    (hnso : NoSelfOverlap sep) :
    ∀ (nm tl acc : List Char) (fuel : Nat),
      (nm ++ (sep ++ tl)).length ≤ fuel →
      hasSubstr sep nm = false →
      pySplitAux sep fuel (nm ++ (sep ++ tl)) acc
        = (acc.reverse ++ nm) :: pySplitAux sep tl.length tl [] := by
  intro nm
  induction nm with
  | nil =>
    intro tl acc fuel h1 _
    obtain ⟨s0, srest, hseq⟩ : ∃ s0 srest, sep = s0 :: srest := by
      rcases sep with _ | ⟨s0, srest⟩
      · exact absurd rfl hsep
      · exact ⟨s0, srest, rfl⟩
    simp only [List.nil_append, List.append_nil] at h1 ⊢
    cases fuel with
    | zero =>
      rw [hseq] at h1
      simp at h1
    | succ fuel =>
      rw [hseq, List.cons_append]
      simp only [pySplitAux]
      rw [if_pos (by
        rw [← List.cons_append]
        exact List.isPrefixOf_iff_prefix.mpr (List.prefix_append _ _))]
      have hdrop : (srest ++ tl).drop ((s0 :: srest).length - 1) = tl := by
        simp only [List.length_cons, Nat.add_sub_cancel]
        exact List.drop_left srest tl
      rw [hdrop]
      have hfuel2 : tl.length ≤ fuel := by
        rw [hseq] at h1
        simp only [List.cons_append, List.length_cons, List.length_append] at h1
        omega
      rw [pySplitAux_fuel_eq (s0 :: srest) fuel tl [] tl.length hfuel2 (le_refl _)]
  | cons ch nm2 ih =>
    intro tl acc fuel h1 h2
    have h2s : sep.isPrefixOf (ch :: nm2) = false ∧ hasSubstr sep nm2 = false := by
      simpa [hasSubstr] using h2
    have hpre : sep.isPrefixOf ((ch :: nm2) ++ (sep ++ tl)) = false := by
      rw [Bool.eq_false_iff]
      intro hcon
      have hp : sep <+: (ch :: nm2) ++ (sep ++ tl) := List.isPrefixOf_iff_prefix.mp hcon
      rcases prefix_append_cases sep (ch :: nm2) (sep ++ tl) hp with
        ⟨hlen, hpa⟩ | ⟨hlen, htake, hdrop⟩
      · have hs : hasSubstr sep (ch :: nm2) = true := by
          rw [hasSubstr, Bool.or_eq_true]
          exact Or.inl (List.isPrefixOf_iff_prefix.mpr hpa)
        rw [h2] at hs
        exact absurd hs (by simp)
      · have hps : sep.drop (ch :: nm2).length <+: sep :=
          List.prefix_of_prefix_length_le hdrop (List.prefix_append sep tl)
            (by rw [List.length_drop]; omega)
        exact hnso (ch :: nm2).length hlen (by simp) hps
    cases fuel with
    | zero => simp at h1
    | succ fuel =>
      have hpre2 : sep.isPrefixOf (ch :: (nm2 ++ (sep ++ tl))) = false := by
        rw [← List.cons_append]
        exact hpre
      rw [List.cons_append]
      simp only [pySplitAux]
      rw [if_neg (by simp [hpre2])]
      rw [ih tl (ch :: acc) fuel (by simp only [List.cons_append, List.length_cons] at h1; omega)
        h2s.2]
      simp

/-- No occurrence of the `"tool:"` marker survives in the packed tail
`name ++ "|input:" ++ input` when neither part contains it. -/
theorem no_tool_marker_in_tail (name input : List Char)
    (h1 : hasSubstr "tool:".data name = false)
    (h3 : hasSubstr "tool:".data input = false) :
    hasSubstr "tool:".data (name ++ ("|input:".data ++ input)) = false := by
  rw [Bool.eq_false_iff]
  intro hcon
  have hlen5 : "tool:".data.length = 5 := by decide
  rcases hasSubstr_append_cases _ _ _ hcon with hA | hB | ⟨k, hk1, hk2, hk3, hk4⟩
  · rw [h1] at hA
    exact absurd hA (by simp)
  · rcases hasSubstr_append_cases _ _ _ hB with hC | hD | ⟨k, hk1, hk2, hk3, hk4⟩
    · exact absurd hC (by decide)
    · rw [h3] at hD
      exact absurd hD (by simp)
    · have hdec : ∀ j, j < 5 → 0 < j → ¬("tool:".data.take j <:+ "|input:".data) := by
        decide
      exact hdec k (by omega) hk1 hk3
  · have hlp : ("tool:".data.drop k).length ≤ "|input:".data.length := by
      rw [List.length_drop]
      have : "|input:".data.length = 7 := by decide
      omega
    have h5 : "tool:".data.drop k <+: "|input:".data :=
      List.prefix_of_prefix_length_le hk4 (List.prefix_append _ _) hlp
    have hdec : ∀ j, j < 5 → 0 < j → ¬("tool:".data.drop j <+: "|input:".data) := by
      decide
    exact hdec k (by omega) hk1 h5

/-- The two splits performed by `hit_cache` on a packed key recover the two
fields exactly, provided neither field contains either marker. -/
theorem pySplit_pack_parts (name input : String)
    (h1 : hasSubstr "tool:".data name.data = false)
    (h2 : hasSubstr "|input:".data name.data = false)
    (h3 : hasSubstr "tool:".data input.data = false)
    (h4 : hasSubstr "|input:".data input.data = false) :
    pySplit (packCacheInput name input) "tool:" = ["", name ++ "|input:" ++ input]
    ∧ pySplit (name ++ "|input:" ++ input) "|input:" = [name, input] := by
  constructor
  · rw [pySplit, if_neg (by decide)]
    have hdata : (packCacheInput name input).data
        = "tool:".data ++ (name.data ++ ("|input:".data ++ input.data)) := by
      simp [packCacheInput, List.append_assoc]
    rw [hdata]
    have hj := pySplitAux_junction "tool:".data (by decide) (by decide)
      [] (name.data ++ ("|input:".data ++ input.data)) []
      ("tool:".data ++ (name.data ++ ("|input:".data ++ input.data))).length
      (by simp) (by decide)
    simp only [List.nil_append, List.append_nil, List.reverse_nil] at hj
    rw [hj]
    rw [pySplitAux_no_occur "tool:".data (name.data ++ ("|input:".data ++ input.data)) []
      (name.data ++ ("|input:".data ++ input.data)).length (le_refl _)
      (no_tool_marker_in_tail name.data input.data h1 h3)]
    have hs1 : String.mk (name.data ++ ("|input:".data ++ input.data))
        = name ++ "|input:" ++ input := by
      have : (name ++ "|input:" ++ input).data
          = name.data ++ ("|input:".data ++ input.data) := by
        simp [List.append_assoc]
      rw [← this, stringMk_data]
    simp only [List.map_cons, List.map_nil, List.reverse_nil, List.nil_append]
    rw [hs1]
  · rw [pySplit, if_neg (by decide)]
    have hdata : (name ++ "|input:" ++ input).data
        = name.data ++ ("|input:".data ++ input.data) := by
      simp [List.append_assoc]
    rw [hdata]
    have hj := pySplitAux_junction "|input:".data (by decide) (by decide)
      name.data input.data []
      (name.data ++ ("|input:".data ++ input.data)).length
      (by simp) h2
    simp only [List.reverse_nil, List.nil_append] at hj
    rw [hj]
    rw [pySplitAux_no_occur "|input:".data input.data [] input.data.length (le_refl _) h4]
    simp only [List.map_cons, List.map_nil, List.reverse_nil, List.nil_append, stringMk_data]

/-- C10 (amended): for tool names and inputs containing neither marker
substring and invariant under `strip()`, the executor's cache-hit packing
followed by the cache-read tool's parsing recovers exactly the original pair,
so the cache-read tool returns `cache.read(name, input)` for the originally
proposed invocation.  (Without strip-invariance the recovery fails: see the
counterexample.) -/
theorem hit_cache_roundtrip (c : CacheHandler) (name input : String)
    (h1 : hasSubstr "tool:".data name.data = false)
    (h2 : hasSubstr "|input:".data name.data = false)
    (h3 : hasSubstr "tool:".data input.data = false)
    (h4 : hasSubstr "|input:".data input.data = false)
    (h5 : pyStrip name = name) (h6 : pyStrip input = input) :
    CacheTools.hit_cache c (packCacheInput name input) = some (c.read name input) := by
  obtain ⟨hs1, hs2⟩ := pySplit_pack_parts name input h1 h2 h3 h4
  rw [CacheTools.hit_cache, hs1]
  dsimp only
  rw [hs2]
  dsimp only
  rw [h5, h6]

/-- C10 counterexample, refuting the claim as stated: the name `"a "`
contains neither `"tool:"` nor `"|input:"`, yet after packing and parsing the
cache-read tool strips the trailing space and reads the wrong key — the cache
holds `"a -b" ↦ "v"` so `cache.read "a " "b"` is `some "v"`, but the tool
returns the result of reading `("a", "b")`, which is `none`. -/
theorem hit_cache_roundtrip_counterexample :
    hasSubstr "tool:".data "a ".data = false
    ∧ hasSubstr "|input:".data "a ".data = false
    ∧ (CacheHandler.mk [("a -b", "v")]).read "a " "b" = some "v"
    ∧ CacheTools.hit_cache (CacheHandler.mk [("a -b", "v")]) (packCacheInput "a " "b")
        = some none := by
  decide

/-- Witness for C10 at a concrete strip-invariant pair. -/
theorem hit_cache_roundtrip_witness :
    CacheTools.hit_cache (CacheHandler.mk [("Search-q", "r")]) (packCacheInput "Search" "q")
      = some ((CacheHandler.mk [("Search-q", "r")]).read "Search" "q") :=
  hit_cache_roundtrip (CacheHandler.mk [("Search-q", "r")]) "Search" "q"
    (by decide) (by decide) (by decide) (by decide) (by decide) (by decide)

end CrewAI
